import Mathlib

/-!
Shallow embedding of the gossip node protocol engine of `src/gossipy/node.py`
(classes `GossipNode`, `ChordNode`, `PartitioningBasedNode`, `All2AllGossipNode`).

Collaborators that live outside `src/` (the shared `CACHE` store, the
`ModelHandler` family, message/enum types from `gossipy.core`) are modelled
from their interface contracts in the specification; every such definition is
marked `Modelled from the spec:`.  Random draws (`numpy.random.randint`,
`numpy.random.normal`) are passed in as explicit parameters standing for the
drawn value, with the distribution's support expressed as hypotheses.
-/

namespace Gossipy

/-- Modelled from the spec: `MessageType` enum of `gossipy.core`
(not under `src/`): `{PUSH, PULL, PUSH_PULL, REPLY}`. -/
inductive MessageType where
  | PUSH
  | PULL
  | PUSH_PULL
  | REPLY
deriving DecidableEq

/-- Modelled from the spec: `AntiEntropyProtocol` enum of `gossipy.core`
(not under `src/`): the protocols a `send` call may request. -/
inductive AntiEntropyProtocol where
  | PUSH
  | PULL
  | PUSH_PULL
deriving DecidableEq

/-- The `MessageType` that `GossipNode.send` stamps on the message built for
each requested protocol (node.py lines 160-167). -/
def protoType : AntiEntropyProtocol → MessageType
  | .PUSH => .PUSH
  | .PULL => .PULL
  | .PUSH_PULL => .PUSH_PULL

/-- Modelled from the spec: `Message` envelope of `gossipy.core`
(not under `src/`): `{timestamp, sender, receiver, type, payload: optional
opaque tuple}`.  Payload tuples carry cache keys / partition ids, all
naturals, so a tuple is embedded as `List Nat`. -/
structure Message where
  timestamp : Nat
  sender : Nat
  receiver : Nat
  type : MessageType
  value : Option (List Nat)
deriving DecidableEq

/-- Modelled from the spec: `ChordMessage` extends `Message` with
`limit : NodeId` (propagation bound). -/
structure ChordMessage where
  timestamp : Nat
  sender : Nat
  receiver : Nat
  limit : Nat
  type : MessageType
  value : Option (List Nat)
deriving DecidableEq

/-- Modelled from the spec: the shared content-addressed snapshot store
`CACHE` (`gossipy` package root, not under `src/`).  `put` hands out a fresh
key; `pop` consumes a key or fails with `CacheMiss`.  Snapshot values have
type `M`. -/
structure Cache (M : Type) where
  entries : List (Nat × M)
  next : Nat
deriving DecidableEq

/-- Modelled from the spec: `Cache.put(value) -> CacheKey` stores the value
under a fresh key. -/
def Cache.put {M : Type} (c : Cache M) (v : M) : Nat × Cache M :=
  (c.next, ⟨(c.next, v) :: c.entries, c.next + 1⟩)

/-- Modelled from the spec: `Cache.pop(key) -> value` removes and returns the
entry; `none` in the first component stands for the fatal `CacheMiss`. -/
def Cache.pop {M : Type} (c : Cache M) (k : Nat) : Option M × Cache M :=
  match c.entries.lookup k with
  | some v => (some v, ⟨c.entries.eraseP (fun e => e.1 == k), c.next⟩)
  | none => (none, c)

/-- `CACHE.pop` applied to a key that may be Python `None`
(`msg.value[0] if msg.value else None` can store `None`); popping `None`
is a `CacheMiss`. -/
def Cache.popOpt {M : Type} (c : Cache M) (k : Option Nat) : Option M × Cache M :=
  match k with
  | some k => c.pop k
  | none => (none, c)

/-- Per-node mutable state of `GossipNode` and its variants: `idx`, the fixed
training data, the timing fields, the model handler's current model, and the
variant's `local_cache` dict (sender NodeId to pending key, in insertion
order; the key can be Python `None` when a PUSH arrived without payload). -/
structure NodeState (M D : Type) where
  idx : Nat
  data : D
  roundLen : Nat
  delta : Nat
  sync : Bool
  model : M
  localCache : List (Nat × Option Nat)
deriving DecidableEq

/-- Python dict assignment `d[k] = v`: replace in place when the key is
present (dicts keep insertion order), else append. -/
def setAssoc {α : Type} (l : List (Nat × α)) (k : Nat) (v : α) : List (Nat × α) :=
  if (l.lookup k).isSome then l.map (fun e => if e.1 = k then (k, v) else e)
  else l ++ [(k, v)]

/-- `GossipNode.timed_out` (node.py line 124):
`((t % round_len) == delta) if sync else ((t % delta) == 0)`. -/
def timedOut {M D : Type} (st : NodeState M D) (t : Nat) : Bool :=
  if st.sync then (t % st.roundLen) == st.delta else (t % st.delta) == 0

/-- Python `int()` applied to a real drawn from `normal`: truncation toward
zero, embedded on the rationals. -/
def pyInt (q : ℚ) : ℤ :=
  if 0 ≤ q then ⌊q⌋ else ⌈q⌉

/-- `GossipNode.__init__` delta assignment (node.py line 82):
`randint(0, round_len) if sync else int(normal(round_len, round_len/10))`.
The random calls are replaced by their drawn values: `syncDraw` stands for
the `randint(0, round_len)` result (contract: uniform on `[0, round_len)`),
`asyncDraw` for the real drawn from `normal(round_len, round_len/10)`
(full support: any rational is a possible draw). -/
def mkDelta (sync : Bool) (syncDraw : ℤ) (asyncDraw : ℚ) : ℤ :=
  if sync then syncDraw else pyInt asyncDraw

/-- The finger-table construction loop of `ChordNode.__init__`
(node.py lines 305-315): starting from `pow2` and running for `m` more
iterations, emit `idx + pow2` with a single conditional subtraction of `N`,
doubling `pow2` each step. -/
def fingerLoop (idx N : Nat) : Nat → Nat → List Nat
  | _, 0 => []
  | pow2, m + 1 =>
      let cur := idx + pow2
      (if cur ≥ N then cur - N else cur) :: fingerLoop idx N (pow2 + pow2) m

/-- `ChordNode.__init__` finger table (node.py lines 304-318):
`m = int(log2(N)) + 1` entries built by `fingerLoop` from `pow2 = 1`, then
reversed.  `int(log2 N)` is `Nat.log2 N` (floor) for `N ≥ 1`. -/
def chordFinger (idx N : Nat) : List Nat :=
  (fingerLoop idx N 1 (Nat.log2 N + 1)).reverse

/-- `msg.value[0] if msg.value else None` (node.py lines 193, 356, 606):
an absent or empty payload tuple is falsy and yields `None`. -/
def payloadHead (v : Option (List Nat)) : Option Nat :=
  match v with
  | some (k :: _) => some k
  | _ => none

/-- `GossipNode.send` (node.py lines 160-169).  `ModelHandler.caching`
(modelled from the spec: handler code is not under `src/`) snapshots the
current model into the shared cache and returns the fresh key.  The node's
own state is never written by `send`; the possibly extended cache is
returned alongside the built message.  The protocol enum has exactly the
three handled values, so the `ValueError` branch of line 169 is
unreachable. -/
def gossipSend {M D : Type} (st : NodeState M D) (c : Cache M) (t peer : Nat)
    (protocol : AntiEntropyProtocol) : Message × Cache M :=
  match protocol with
  | .PUSH =>
      let kc := c.put st.model
      (⟨t, st.idx, peer, .PUSH, some [kc.1]⟩, kc.2)
  | .PULL => (⟨t, st.idx, peer, .PULL, none⟩, c)
  | .PUSH_PULL =>
      let kc := c.put st.model
      (⟨t, st.idx, peer, .PUSH_PULL, some [kc.1]⟩, kc.2)

/-- `GossipNode.receive` (node.py lines 191-204).  `mergeFn local data
incoming` is `ModelHandler.__call__` (merge contract modelled from the
spec).  Result `none` is a raised `CacheMiss`; otherwise the triple is
(reply message if any, new node state, new shared cache). -/
def gossipReceive {M D : Type} (mergeFn : M → D → M → M) (st : NodeState M D)
    (c : Cache M) (t : Nat) (msg : Message) :
    Option (Option Message × NodeState M D × Cache M) :=
  let recvKey := payloadHead msg.value
  let step1 : Option (NodeState M D × Cache M) :=
    if msg.type = .PUSH ∨ msg.type = .REPLY ∨ msg.type = .PUSH_PULL then
      match c.popOpt recvKey with
      | (none, _) => none
      | (some m, c1) => some ({ st with model := mergeFn st.model st.data m }, c1)
    else some (st, c)
  match step1 with
  | none => none
  | some (st1, c1) =>
      if msg.type = .PULL ∨ msg.type = .PUSH_PULL then
        let kc := c1.put st1.model
        some (some ⟨t, st1.idx, msg.sender, .REPLY, some [kc.1]⟩, st1, kc.2)
      else some (none, st1, c1)

/-- `ChordNode.send` (node.py lines 339-350): only PUSH is accepted, caching
the model under owner `sender` and carrying `limit`; any other protocol
raises (`Except.error`) before anything is cached, so the cache comes back
untouched. -/
def chordSend {M D : Type} (st : NodeState M D) (c : Cache M)
    (t sender peer : Nat) (protocol : AntiEntropyProtocol) (limit : Nat) :
    Except String ChordMessage × Cache M :=
  match protocol with
  | .PUSH =>
      let kc := c.put st.model
      (.ok ⟨t, sender, peer, limit, .PUSH, some [kc.1]⟩, kc.2)
  | _ => (.error "ChordNode only supports PUSH protocol.", c)

/-- `All2AllGossipNode.send` (node.py lines 592-600): PUSH delegates to the
base `GossipNode.send`; anything else raises with the cache untouched. -/
def all2allSend {M D : Type} (st : NodeState M D) (c : Cache M) (t peer : Nat)
    (protocol : AntiEntropyProtocol) : Except String Message × Cache M :=
  match protocol with
  | .PUSH =>
      let mc := gossipSend st c t peer .PUSH
      (.ok mc.1, mc.2)
  | _ => (.error "All2AllNode only supports PUSH protocol.", c)

/-- `ChordNode.receive` (node.py lines 353-366): on PUSH, when the sender
already has a pending entry AND this node's idx equals `msg.limit`, the
stale key is popped from the shared cache; in every PUSH case the new key
(or Python `None`) is then stored under the sender; non-PUSH messages are
ignored.  Always returns no reply; `none` is a raised `CacheMiss`. -/
def chordReceive {M D : Type} (st : NodeState M D) (c : Cache M)
    (msg : ChordMessage) :
    Option (Option Message × NodeState M D × Cache M) :=
  if msg.type = .PUSH then
    let recvKey := payloadHead msg.value
    match st.localCache.lookup msg.sender with
    | some oldKey =>
        if st.idx = msg.limit then
          match c.popOpt oldKey with
          | (none, _) => none
          | (some _, c1) =>
              some (none,
                { st with localCache := setAssoc st.localCache msg.sender recvKey }, c1)
        else
          some (none,
            { st with localCache := setAssoc st.localCache msg.sender recvKey }, c)
    | none =>
        some (none,
          { st with localCache := setAssoc st.localCache msg.sender recvKey }, c)
  else some (none, st, c)

/-- `All2AllGossipNode.receive` (node.py lines 603-613): on PUSH, any stale
entry of the same sender is popped from the shared cache unconditionally,
then the new key is stored; non-PUSH messages are ignored.  Always returns
no reply; `none` is a raised `CacheMiss`. -/
def all2allReceive {M D : Type} (st : NodeState M D) (c : Cache M)
    (msg : Message) :
    Option (Option Message × NodeState M D × Cache M) :=
  if msg.type = .PUSH then
    let recvKey := payloadHead msg.value
    match st.localCache.lookup msg.sender with
    | some oldKey =>
        match c.popOpt oldKey with
        | (none, _) => none
        | (some _, c1) =>
            some (none,
              { st with localCache := setAssoc st.localCache msg.sender recvKey }, c1)
    | none =>
        some (none,
          { st with localCache := setAssoc st.localCache msg.sender recvKey }, c)
  else some (none, st, c)

/-- `[CACHE.pop(k) for k in self.local_cache.values()]` (node.py lines 326,
584): pop the pending keys left to right; any miss raises. -/
def popAll {M : Type} (c : Cache M) : List (Option Nat) → Option (List M × Cache M)
  | [] => some ([], c)
  | k :: ks =>
      match c.popOpt k with
      | (none, _) => none
      | (some v, c1) =>
          match popAll c1 ks with
          | none => none
          | some (vs, c2) => some (v :: vs, c2)

/-- `ChordNode.timed_out` (node.py lines 322-328): base timing check, then,
if due and the local cache is non-empty, pop every pending key, hand the
popped snapshots with the node's data and `weights` to the handler's
multi-source merge (`mergeW`, modelled from the spec), and clear the local
cache.  `none` is a raised `CacheMiss`; otherwise (fired?, state, cache). -/
def chordTimedOut {M D W : Type} (mergeW : M → D → List M → W → M)
    (st : NodeState M D) (c : Cache M) (t : Nat) (weights : W) :
    Option (Bool × NodeState M D × Cache M) :=
  let tout := timedOut st t
  if tout ∧ st.localCache ≠ [] then
    match popAll c (st.localCache.map (fun e => e.2)) with
    | none => none
    | some (models, c1) =>
        some (tout,
          { st with model := mergeW st.model st.data models weights,
                    localCache := [] }, c1)
  else some (tout, st, c)

/-- `All2AllGossipNode.timed_out` (node.py lines 576-586): identical body to
`ChordNode.timed_out`, embedded separately because the source defines it
separately. -/
def all2allTimedOut {M D W : Type} (mergeW : M → D → List M → W → M)
    (st : NodeState M D) (c : Cache M) (t : Nat) (weights : W) :
    Option (Bool × NodeState M D × Cache M) :=
  let tout := timedOut st t
  if tout ∧ st.localCache ≠ [] then
    match popAll c (st.localCache.map (fun e => e.2)) with
    | none => none
    | some (models, c1) =>
        some (tout,
          { st with model := mergeW st.model st.data models weights,
                    localCache := [] }, c1)
  else some (tout, st, c)

/-- Modelled from the spec: `PartitionedTMH`'s merge (`model/handler.py` is
not under `src/`): "merges only the named partition slice into the local
model, leaving all other partitions untouched".  The model is the list of
its `n_parts` slices; slice `pid` of the local model is merged (via
`mergeSlice local data incoming`) with slice `pid` of the incoming model. -/
def partitionedMerge {S D : Type} (mergeSlice : S → D → S → S) (d : D) :
    List S → List S → Nat → List S
  | [], _, _ => []
  | l :: ls, inc, pid =>
      match pid, inc with
      | 0, i :: _ => mergeSlice l d i :: ls
      | 0, [] => l :: ls
      | n + 1, [] => l :: partitionedMerge mergeSlice d ls [] n
      | n + 1, _ :: is => l :: partitionedMerge mergeSlice d ls is n

/-- `PartitioningBasedNode.receive` (node.py lines 508-529).  The payload of
a merging message unpacks as `recv_model, pid = msg.value` (anything but a
2-tuple raises, as does a `CacheMiss`).  `freshPid` stands for the
`np.random.randint(0, n_parts)` draw made when building a reply. -/
def partReceive {S D : Type} (mergeSlice : S → D → S → S)
    (st : NodeState (List S) D) (c : Cache (List S)) (t : Nat) (msg : Message)
    (freshPid : Nat) :
    Option (Option Message × NodeState (List S) D × Cache (List S)) :=
  let step1 : Option (NodeState (List S) D × Cache (List S)) :=
    if msg.type = .PUSH ∨ msg.type = .REPLY ∨ msg.type = .PUSH_PULL then
      match msg.value with
      | some [k, pid] =>
          match c.pop k with
          | (none, _) => none
          | (some inc, c1) =>
              some ({ st with
                        model := partitionedMerge mergeSlice st.data st.model inc pid },
                    c1)
      | _ => none
    else some (st, c)
  match step1 with
  | none => none
  | some (st1, c1) =>
      if msg.type = .PULL ∨ msg.type = .PUSH_PULL then
        let kc := c1.put st1.model
        some (some ⟨t, st1.idx, msg.sender, .REPLY, some [kc.1, freshPid]⟩, st1, kc.2)
      else some (none, st1, c1)

/-- C6: for a synchronous node with `delta ∈ [0, roundLen)`, `timed_out t`
holds iff `t % roundLen = delta`; for an asynchronous node with
`delta ≥ 1`, it holds iff `t % delta = 0`. -/
theorem timedOut_spec {M D : Type} (st : NodeState M D) (t : Nat)
    (hsync : st.sync = true → st.delta < st.roundLen)
    (hasync : st.sync = false → 1 ≤ st.delta) :
    (st.sync = true → (timedOut st t = true ↔ t % st.roundLen = st.delta))
    ∧ (st.sync = false → (timedOut st t = true ↔ t % st.delta = 0)) := by
  constructor <;> intro h <;> simp [timedOut, h]

/-- Witness for C6 at a concrete synchronous and asynchronous node. -/
theorem timedOut_spec_w :
    ((timedOut (M := Nat) (D := Unit) ⟨0, (), 10, 3, true, 0, []⟩ 13 = true ↔
        13 % 10 = 3)
      ∧ (timedOut (M := Nat) (D := Unit) ⟨0, (), 10, 3, false, 0, []⟩ 6 = true ↔
        6 % 3 = 0)) :=
  ⟨(timedOut_spec ⟨0, (), 10, 3, true, 0, []⟩ 13 (fun _ => by decide)
      (fun h => nomatch h)).1 rfl,
   (timedOut_spec ⟨0, (), 10, 3, false, 0, []⟩ 6 (fun h => nomatch h)
      (fun _ => by decide)).2 rfl⟩

/-- C8: `GossipNode.send` builds, for PUSH and PUSH_PULL, a message whose
payload is exactly the key freshly returned by `caching` (the cache gains
that snapshot); PULL carries no payload and leaves the cache untouched; in
every case the header is `(t, idx, peer, protocol's message type)`. -/
theorem gossipSend_spec {M D : Type} (st : NodeState M D) (c : Cache M)
    (t peer : Nat) :
    gossipSend st c t peer .PUSH
      = (⟨t, st.idx, peer, .PUSH, some [(c.put st.model).1]⟩, (c.put st.model).2)
    ∧ gossipSend st c t peer .PULL = (⟨t, st.idx, peer, .PULL, none⟩, c)
    ∧ gossipSend st c t peer .PUSH_PULL
      = (⟨t, st.idx, peer, .PUSH_PULL, some [(c.put st.model).1]⟩, (c.put st.model).2)
    ∧ ∀ p : AntiEntropyProtocol,
        (gossipSend st c t peer p).1.timestamp = t
        ∧ (gossipSend st c t peer p).1.sender = st.idx
        ∧ (gossipSend st c t peer p).1.receiver = peer
        ∧ (gossipSend st c t peer p).1.type = protoType p := by
  refine ⟨rfl, rfl, rfl, fun p => ?_⟩
  cases p <;> exact ⟨rfl, rfl, rfl, rfl⟩

/-- C7: `ChordNode.send` and `All2AllGossipNode.send` reject every protocol
other than PUSH with an error, returning before anything is cached: the
shared cache comes back exactly as it was and no message is built. -/
theorem send_unsupported_spec {M D : Type} (st : NodeState M D) (c : Cache M)
    (t sender peer limit : Nat) (p : AntiEntropyProtocol)
    (hp : p ≠ .PUSH) :
    chordSend st c t sender peer p limit
      = (.error "ChordNode only supports PUSH protocol.", c)
    ∧ all2allSend st c t peer p
      = (.error "All2AllNode only supports PUSH protocol.", c) := by
  cases p with
  | PUSH => exact absurd rfl hp
  | PULL => exact ⟨rfl, rfl⟩
  | PUSH_PULL => exact ⟨rfl, rfl⟩

/-- Witness for C7 at a concrete state and the PULL protocol. -/
theorem send_unsupported_spec_w :
    chordSend (M := Nat) (D := Unit) ⟨0, (), 10, 3, true, 42, []⟩ ⟨[], 0⟩
        1 0 2 .PULL 5
      = (.error "ChordNode only supports PUSH protocol.", ⟨[], 0⟩)
    ∧ all2allSend (M := Nat) (D := Unit) ⟨0, (), 10, 3, true, 42, []⟩ ⟨[], 0⟩
        1 2 .PULL
      = (.error "All2AllNode only supports PUSH protocol.", ⟨[], 0⟩) :=
  send_unsupported_spec ⟨0, (), 10, 3, true, 42, []⟩ ⟨[], 0⟩ 1 0 2 5 .PULL
    (fun h => nomatch h)

/-- C2 counterexample: the asynchronous delta is NOT clamped to be at least
one.  The normal distribution has full support, so `0.4` is a possible draw
of `normal(round_len, round_len/10)`; `int(0.4) = 0`, and the constructed
delta is `0`, so `delta ≥ 1` fails (and `t % delta` in `timed_out` would
divide by zero). -/
theorem mkDelta_async_unclamped_cex :
    mkDelta false 0 (2 / 5) = 0 ∧ ¬ (1 ≤ mkDelta false 0 (2 / 5)) := by
  have h : mkDelta false 0 (2 / 5) = 0 := by
    simp only [mkDelta, pyInt, if_neg (Bool.false_ne_true), if_pos (by norm_num : (0:ℚ) ≤ 2 / 5)]
    rw [show ((2 : ℚ) / 5) = (2 : ℚ) / (5 : ℚ) from rfl]
    rw [Int.floor_eq_zero_iff.mpr]
    constructor <;> norm_num
  exact ⟨h, by rw [h]; norm_num⟩

/-- C2 as amended: the synchronous delta inherits `randint`'s range
`[0, roundLen)`; the asynchronous delta is the bare truncation of the
normal draw, with no clamp: it is at least `1` exactly when the draw is,
and a draw below `1` yields a delta below `1` (possibly `0` or negative). -/
theorem mkDelta_amended_spec (R u : ℤ) (q : ℚ) (hu0 : 0 ≤ u) (huR : u < R) :
    (0 ≤ mkDelta true u q ∧ mkDelta true u q < R)
    ∧ (1 ≤ q → 1 ≤ mkDelta false u q)
    ∧ (q < 1 → mkDelta false u q < 1) := by
  refine ⟨⟨by simpa [mkDelta] using hu0, by simpa [mkDelta] using huR⟩, ?_, ?_⟩
  · intro hq
    have h0 : (0 : ℚ) ≤ q := le_trans zero_le_one hq
    simp only [mkDelta, pyInt, if_neg (Bool.false_ne_true), if_pos h0]
    exact Int.le_floor.mpr (by exact_mod_cast hq)
  · intro hq
    by_cases h0 : (0 : ℚ) ≤ q
    · simp only [mkDelta, pyInt, if_neg (Bool.false_ne_true), if_pos h0]
      exact Int.floor_lt.mpr (by exact_mod_cast hq)
    · simp only [mkDelta, pyInt, if_neg (Bool.false_ne_true), if_neg h0]
      have : ⌈q⌉ ≤ 0 := Int.ceil_le.mpr (by exact_mod_cast le_of_not_le h0)
      omega

/-- Witness for the amended C2 at `R = 10`, `u = 3`, `q = 1/2`. -/
theorem mkDelta_amended_spec_w :
    (0 ≤ mkDelta true 3 (1 / 2) ∧ mkDelta true 3 (1 / 2) < 10)
    ∧ (1 ≤ (1 / 2 : ℚ) → 1 ≤ mkDelta false 3 (1 / 2))
    ∧ ((1 / 2 : ℚ) < 1 → mkDelta false 3 (1 / 2) < 1) :=
  mkDelta_amended_spec 10 3 (1 / 2) (by norm_num) (by norm_num)

/-- C1 counterexample: a `ChordNode` with `idx = 0` holds a pending entry
`sender 5 ↦ key 1` (key `1` live in the shared cache) and receives a PUSH
from sender `5` carrying key `2` with `limit = 3 ≠ idx`.  The new key is
stored, but the stale key `1` is NOT popped: the shared cache comes back
unchanged, still holding key `1` — the entry is leaked, refuting the claim
that the stale key is always released before the new key is stored. -/
theorem chordReceive_stale_leak_cex :
    chordReceive (M := Nat) (D := Unit)
        ⟨0, (), 10, 3, true, 42, [(5, some 1)]⟩ ⟨[(1, 100)], 2⟩
        ⟨0, 5, 0, 3, .PUSH, some [2]⟩
      = some (none, ⟨0, (), 10, 3, true, 42, [(5, some 2)]⟩, ⟨[(1, 100)], 2⟩)
    ∧ (Cache.entries (M := Nat) ⟨[(1, 100)], 2⟩).lookup 1 = some 100 := by
  exact ⟨by decide, rfl⟩

/-- C1 as amended: `All2AllGossipNode.receive` always releases the stale
key of a duplicate sender before storing the new key; `ChordNode.receive`
does so only when the node's `idx` equals the message's `limit` — when
`idx ≠ limit` the stale key is overwritten in LocalCache without being
popped from the shared cache. -/
theorem localCache_stale_release_amended {M D : Type}
    (st : NodeState M D) (c : Cache M) (cmsg : ChordMessage) (amsg : Message)
    (ka kc : Nat) (va vc : M) (ca cc : Cache M)
    (hat : amsg.type = .PUSH) (hct : cmsg.type = .PUSH)
    (hla : st.localCache.lookup amsg.sender = some (some ka))
    (hlc : st.localCache.lookup cmsg.sender = some (some kc))
    (hpa : c.pop ka = (some va, ca))
    (hpc : c.pop kc = (some vc, cc)) :
    all2allReceive st c amsg
      = some (none,
          { st with localCache := setAssoc st.localCache amsg.sender (payloadHead amsg.value) },
          ca)
    ∧ (st.idx = cmsg.limit →
        chordReceive st c cmsg
          = some (none,
              { st with localCache := setAssoc st.localCache cmsg.sender (payloadHead cmsg.value) },
              cc))
    ∧ (st.idx ≠ cmsg.limit →
        chordReceive st c cmsg
          = some (none,
              { st with localCache := setAssoc st.localCache cmsg.sender (payloadHead cmsg.value) },
              c)) := by
  refine ⟨?_, ?_, ?_⟩
  · simp [all2allReceive, hat, hla, Cache.popOpt, hpa]
  · intro hidx
    simp [chordReceive, hct, hlc, Cache.popOpt, hpc, hidx]
  · intro hidx
    simp [chordReceive, hct, hlc, Cache.popOpt, hidx]

/-- Witness for the amended C1: both variants at concrete states; the
All2All node and the Chord node (whose `idx 0` equals the `limit 0`)
release stale key `1`, while the Chord node with `limit 3 ≠ idx 0` keeps
the cache untouched. -/
theorem localCache_stale_release_amended_w :
    all2allReceive (M := Nat) (D := Unit)
        ⟨0, (), 10, 3, true, 42, [(5, some 1)]⟩ ⟨[(1, 100)], 2⟩
        ⟨0, 5, 0, .PUSH, some [2]⟩
      = some (none, ⟨0, (), 10, 3, true, 42, [(5, some 2)]⟩, ⟨[], 2⟩)
    ∧ chordReceive (M := Nat) (D := Unit)
        ⟨0, (), 10, 3, true, 42, [(5, some 1)]⟩ ⟨[(1, 100)], 2⟩
        ⟨0, 5, 0, 0, .PUSH, some [2]⟩
      = some (none, ⟨0, (), 10, 3, true, 42, [(5, some 2)]⟩, ⟨[], 2⟩) := by
  have h := localCache_stale_release_amended (M := Nat) (D := Unit)
    ⟨0, (), 10, 3, true, 42, [(5, some 1)]⟩ ⟨[(1, 100)], 2⟩
    ⟨0, 5, 0, 0, .PUSH, some [2]⟩ ⟨0, 5, 0, .PUSH, some [2]⟩
    1 1 100 100 ⟨[], 2⟩ ⟨[], 2⟩ rfl rfl rfl rfl (by decide) (by decide)
  exact ⟨by simpa using h.1, by simpa using h.2.1 rfl⟩

/-- `chordReceive` never produces a reply message. -/
theorem chordReceive_fst {M D : Type} (st : NodeState M D) (c : Cache M)
    (msg : ChordMessage) :
    ∀ out, chordReceive st c msg = some out → out.1 = none := by
  intro out h
  unfold chordReceive at h
  repeat split at h
  all_goals simp_all
  all_goals (subst h; rfl)

/-- `all2allReceive` never produces a reply message. -/
theorem all2allReceive_fst {M D : Type} (st : NodeState M D) (c : Cache M)
    (msg : Message) :
    ∀ out, all2allReceive st c msg = some out → out.1 = none := by
  intro out h
  unfold all2allReceive at h
  repeat split at h
  all_goals simp_all
  all_goals (subst h; rfl)

/-- C10: `ChordNode.receive` and `All2AllGossipNode.receive` never return a
reply, and on any non-PUSH message they return without raising and leave
the node state (LocalCache and model) and the shared cache exactly as they
were. -/
theorem receive_ignore_spec {M D : Type} (st : NodeState M D) (c : Cache M)
    (cmsg : ChordMessage) (amsg : Message)
    (hc : cmsg.type ≠ .PUSH) (ha : amsg.type ≠ .PUSH) :
    chordReceive st c cmsg = some (none, st, c)
    ∧ all2allReceive st c amsg = some (none, st, c)
    ∧ (∀ (cmsg' : ChordMessage) out,
        chordReceive st c cmsg' = some out → out.1 = none)
    ∧ (∀ (amsg' : Message) out,
        all2allReceive st c amsg' = some out → out.1 = none) := by
  refine ⟨by simp [chordReceive, hc], by simp [all2allReceive, ha],
    fun cmsg' => chordReceive_fst st c cmsg',
    fun amsg' => all2allReceive_fst st c amsg'⟩

/-- Witness for C10 at a concrete state and PULL messages. -/
theorem receive_ignore_spec_w :
    chordReceive (M := Nat) (D := Unit)
        ⟨0, (), 10, 3, true, 42, [(5, some 1)]⟩ ⟨[(1, 100)], 2⟩
        ⟨0, 5, 0, 3, .PULL, none⟩
      = some (none, ⟨0, (), 10, 3, true, 42, [(5, some 1)]⟩, ⟨[(1, 100)], 2⟩)
    ∧ all2allReceive (M := Nat) (D := Unit)
        ⟨0, (), 10, 3, true, 42, [(5, some 1)]⟩ ⟨[(1, 100)], 2⟩
        ⟨0, 5, 0, .PULL, none⟩
      = some (none, ⟨0, (), 10, 3, true, 42, [(5, some 1)]⟩, ⟨[(1, 100)], 2⟩) := by
  have h := receive_ignore_spec (M := Nat) (D := Unit)
    ⟨0, (), 10, 3, true, 42, [(5, some 1)]⟩ ⟨[(1, 100)], 2⟩
    ⟨0, 5, 0, 3, .PULL, none⟩ ⟨0, 5, 0, .PULL, none⟩
    (fun h => nomatch h) (fun h => nomatch h)
  exact ⟨h.1, h.2.1⟩

/-- The loop always emits one entry per iteration. -/
theorem fingerLoop_length (idx N : Nat) :
    ∀ (m pow2 : Nat), (fingerLoop idx N pow2 m).length = m := by
  intro m
  induction m with
  | zero => intro pow2; rfl
  | succ m ih => intro pow2; simp [fingerLoop, ih]

/-- The loop's single conditional subtraction agrees with `% N` whenever the
sum stays below `2 * N`. -/
theorem condSub_eq_mod (a N : Nat) (h : a < 2 * N) :
    (if a ≥ N then a - N else a) = a % N := by
  by_cases hN : N ≤ a
  · have h2 : a - N < N := by omega
    have h3 : a % N = (a - N) % N := by
      conv_lhs => rw [show a = N + (a - N) by omega]
      exact Nat.add_mod_left N (a - N)
    rw [if_pos hN, h3, Nat.mod_eq_of_lt h2]
  · rw [if_neg hN, Nat.mod_eq_of_lt (by omega)]

/-- Element `i` of the loop started at `pow2 = 2 ^ j` is
`(idx + 2 ^ (j + i)) % N`, provided every sum along the way stays below
`2 * N`. -/
theorem fingerLoop_get (idx N : Nat) :
    ∀ (m j i : Nat), i < m → (∀ r, r < m → idx + 2 ^ (j + r) < 2 * N) →
      (fingerLoop idx N (2 ^ j) m)[i]? = some ((idx + 2 ^ (j + i)) % N) := by
  intro m
  induction m with
  | zero => intro j i hi; omega
  | succ m ih =>
      intro j i hi hb
      cases i with
      | zero =>
          have hb0 := hb 0 (by omega)
          simp only [fingerLoop, List.getElem?_cons_zero, Option.some.injEq]
          simpa using condSub_eq_mod (idx + 2 ^ j) N (by simpa using hb0)
      | succ i =>
          have hstep : (fingerLoop idx N (2 ^ j) (m + 1))[i + 1]?
              = (fingerLoop idx N (2 ^ j + 2 ^ j) m)[i]? := by
            simp [fingerLoop]
          have h2 : 2 ^ j + 2 ^ j = 2 ^ (j + 1) := by
            rw [pow_succ]; omega
          have hb' : ∀ r, r < m → idx + 2 ^ (j + 1 + r) < 2 * N := by
            intro r hr
            have := hb (r + 1) (by omega)
            have he : j + (r + 1) = j + 1 + r := by omega
            rwa [he] at this
          have := ih (j + 1) i (by omega) hb'
          rw [hstep, h2, this]
          have he : j + 1 + i = j + (i + 1) := by omega
          rw [he]

/-- C3: for a `ChordNode` on a network of size `N ≥ 1` with `idx < N`, the
finger table has exactly `⌊log2 N⌋ + 1` entries, its pre-reversal entry `i`
is `(idx + 2 ^ i) % N` (the single conditional subtraction coincides with
`% N` for every `i < m`), and the stored table is the reverse of that
sequence. -/
theorem chordFinger_spec (idx N : Nat) (hN : 1 ≤ N) (hidx : idx < N) :
    (chordFinger idx N).length = Nat.log2 N + 1
    ∧ (∀ i, i < Nat.log2 N + 1 →
        (fingerLoop idx N 1 (Nat.log2 N + 1))[i]? = some ((idx + 2 ^ i) % N))
    ∧ chordFinger idx N = (fingerLoop idx N 1 (Nat.log2 N + 1)).reverse := by
  refine ⟨by simp [chordFinger, fingerLoop_length], ?_, rfl⟩
  intro i hi
  have hb : ∀ r, r < Nat.log2 N + 1 → idx + 2 ^ (0 + r) < 2 * N := by
    intro r hr
    have h2 : 2 ^ r ≤ N := by
      calc 2 ^ r ≤ 2 ^ Nat.log2 N := Nat.pow_le_pow_right (by omega) (by omega)
        _ ≤ N := Nat.log2_self_le (by omega)
    rw [Nat.zero_add]
    omega
  have := fingerLoop_get idx N (Nat.log2 N + 1) 0 i hi hb
  simpa using this

/-- Witness for C3 at `idx = 3`, `N = 8` (the spec's own example: `m = 4`,
pre-reversal `[4, 5, 7, 3]`). -/
theorem chordFinger_spec_w :
    (chordFinger 3 8).length = Nat.log2 8 + 1
    ∧ (∀ i, i < Nat.log2 8 + 1 →
        (fingerLoop 3 8 1 (Nat.log2 8 + 1))[i]? = some ((3 + 2 ^ i) % 8))
    ∧ chordFinger 3 8 = (fingerLoop 3 8 1 (Nat.log2 8 + 1)).reverse :=
  chordFinger_spec 3 8 (by decide) (by decide)

/-- C5: `GossipNode.receive` on a message referencing key `k` whose snapshot
`v` is live: PUSH and REPLY consume the key and merge `v` with the local
model and training data, returning no reply; PUSH_PULL does the same and
then snapshots the just-merged model under a fresh key, returning a REPLY
to the original sender carrying exactly that key; PULL merges nothing and
returns a REPLY carrying a fresh snapshot of the unchanged model. -/
theorem gossipReceive_spec {M D : Type} (mergeFn : M → D → M → M)
    (st : NodeState M D) (c : Cache M) (t : Nat) (msg : Message)
    (k : Nat) (v : M) (c' : Cache M)
    (hk : msg.value = some [k])
    (hpop : c.pop k = (some v, c')) :
    (msg.type = .PUSH ∨ msg.type = .REPLY →
      gossipReceive mergeFn st c t msg
        = some (none, { st with model := mergeFn st.model st.data v }, c'))
    ∧ (msg.type = .PUSH_PULL →
      gossipReceive mergeFn st c t msg
        = some (some ⟨t, st.idx, msg.sender, .REPLY,
                  some [(c'.put (mergeFn st.model st.data v)).1]⟩,
                { st with model := mergeFn st.model st.data v },
                (c'.put (mergeFn st.model st.data v)).2))
    ∧ (msg.type = .PULL →
      gossipReceive mergeFn st c t msg
        = some (some ⟨t, st.idx, msg.sender, .REPLY, some [(c.put st.model).1]⟩,
                st, (c.put st.model).2)) := by
  refine ⟨?_, ?_, ?_⟩
  · rintro (h | h) <;>
      simp [gossipReceive, hk, payloadHead, Cache.popOpt, hpop, h]
  · intro h
    simp [gossipReceive, hk, payloadHead, Cache.popOpt, hpop, h, Cache.put]
  · intro h
    simp [gossipReceive, hk, payloadHead, h, Cache.put]

/-- Witness for C5: a PUSH carrying live key `0` merges snapshot `100` into
model `42` (merge modelled as addition) and consumes the key. -/
theorem gossipReceive_spec_w :
    gossipReceive (M := Nat) (D := Unit) (fun m _ i => m + i)
        ⟨7, (), 10, 3, true, 42, []⟩ ⟨[(0, 100)], 1⟩ 5 ⟨1, 3, 7, .PUSH, some [0]⟩
      = some (none, ⟨7, (), 10, 3, true, 142, []⟩, ⟨[], 1⟩) := by
  have h := gossipReceive_spec (M := Nat) (D := Unit) (fun m _ i => m + i)
    ⟨7, (), 10, 3, true, 42, []⟩ ⟨[(0, 100)], 1⟩ 5 ⟨1, 3, 7, .PUSH, some [0]⟩
    0 100 ⟨[], 1⟩ rfl (by decide)
  simpa using h.1 (Or.inl rfl)

/-- Partitions other than the named one are untouched by the partitioned
merge. -/
theorem partitionedMerge_frame {S D : Type} (mergeSlice : S → D → S → S)
    (d : D) :
    ∀ (lm inc : List S) (pid j : Nat), j ≠ pid →
      (partitionedMerge mergeSlice d lm inc pid)[j]? = lm[j]? := by
  intro lm
  induction lm with
  | nil => intro inc pid j hj; simp [partitionedMerge]
  | cons l ls ih =>
      intro inc pid j hj
      match pid, inc with
      | 0, i :: is =>
          match j, hj with
          | j + 1, _ => simp [partitionedMerge]
      | 0, [] =>
          match j, hj with
          | j + 1, _ => simp [partitionedMerge]
      | n + 1, [] =>
          match j with
          | 0 => simp [partitionedMerge]
          | j + 1 =>
              simp only [partitionedMerge, List.getElem?_cons_succ]
              exact ih [] n j (by omega)
      | n + 1, i :: is =>
          match j with
          | 0 => simp [partitionedMerge]
          | j + 1 =>
              simp only [partitionedMerge, List.getElem?_cons_succ]
              exact ih is n j (by omega)

/-- The named partition of the merged model is the slice-merge of the local
and incoming slices. -/
theorem partitionedMerge_at {S D : Type} (mergeSlice : S → D → S → S)
    (d : D) :
    ∀ (lm inc : List S) (pid : Nat) (l i : S),
      lm[pid]? = some l → inc[pid]? = some i →
      (partitionedMerge mergeSlice d lm inc pid)[pid]? = some (mergeSlice l d i) := by
  intro lm
  induction lm with
  | nil => intro inc pid l i hl; simp at hl
  | cons x ls ih =>
      intro inc pid l i hl hi
      match pid, inc with
      | 0, y :: is =>
          simp only [List.getElem?_cons_zero, Option.some.injEq] at hl hi
          simp [partitionedMerge, hl, hi]
      | 0, [] => simp at hi
      | n + 1, [] => simp at hi
      | n + 1, y :: is =>
          simp only [List.getElem?_cons_succ] at hl hi
          simp only [partitionedMerge, List.getElem?_cons_succ]
          exact ih is n l i hl hi

/-- C9: `PartitioningBasedNode.receive` on a merging message naming
partition `pid` updates the local model to the partitioned merge — which
changes only slice `pid` (to the slice-merge of the local and incoming
`pid` slices) and leaves every other slice exactly as it was — and a
PUSH_PULL reply carries the fresh independently drawn partition id
`freshPid`, whatever `pid` was. -/
theorem partReceive_frame_spec {S D : Type} (mergeSlice : S → D → S → S)
    (st : NodeState (List S) D) (c : Cache (List S)) (t : Nat) (msg : Message)
    (freshPid : Nat) (k pid : Nat) (inc : List S) (c' : Cache (List S))
    (hval : msg.value = some [k, pid])
    (hpop : c.pop k = (some inc, c')) :
    (msg.type = .PUSH ∨ msg.type = .REPLY →
      partReceive mergeSlice st c t msg freshPid
        = some (none,
            { st with model := partitionedMerge mergeSlice st.data st.model inc pid },
            c'))
    ∧ (msg.type = .PUSH_PULL →
      partReceive mergeSlice st c t msg freshPid
        = some (some ⟨t, st.idx, msg.sender, .REPLY,
              some [(c'.put (partitionedMerge mergeSlice st.data st.model inc pid)).1,
                    freshPid]⟩,
            { st with model := partitionedMerge mergeSlice st.data st.model inc pid },
            (c'.put (partitionedMerge mergeSlice st.data st.model inc pid)).2))
    ∧ (∀ j, j ≠ pid →
        (partitionedMerge mergeSlice st.data st.model inc pid)[j]? = st.model[j]?)
    ∧ (∀ l i, st.model[pid]? = some l → inc[pid]? = some i →
        (partitionedMerge mergeSlice st.data st.model inc pid)[pid]?
          = some (mergeSlice l st.data i)) := by
  refine ⟨?_, ?_, ?_, ?_⟩
  · rintro (h | h) <;> simp [partReceive, hval, hpop, h]
  · intro h
    simp [partReceive, hval, hpop, h, Cache.put]
  · intro j hj
    exact partitionedMerge_frame mergeSlice st.data st.model inc pid j hj
  · intro l i hl hi
    exact partitionedMerge_at mergeSlice st.data st.model inc pid l i hl hi

/-- Witness for C9: model `[10, 20, 30]`, incoming `[1, 2, 3]`, `pid = 1`,
PUSH — only the middle slice changes. -/
theorem partReceive_frame_spec_w :
    partReceive (S := Nat) (D := Unit) (fun l _ i => l + i)
        ⟨7, (), 10, 3, true, [10, 20, 30], []⟩ ⟨[(0, [1, 2, 3])], 1⟩ 5
        ⟨1, 3, 7, .PUSH, some [0, 1]⟩ 2
      = some (none, ⟨7, (), 10, 3, true, [10, 22, 30], []⟩, ⟨[], 1⟩) := by
  have h := partReceive_frame_spec (S := Nat) (D := Unit) (fun l _ i => l + i)
    ⟨7, (), 10, 3, true, [10, 20, 30], []⟩ ⟨[(0, [1, 2, 3])], 1⟩ 5
    ⟨1, 3, 7, .PUSH, some [0, 1]⟩ 2 0 1 [1, 2, 3] ⟨[], 1⟩ rfl (by decide)
  simpa using h.1 (Or.inl rfl)

/-- One step of `List.lookup` past an entry whose key differs. -/
theorem lookup_cons_ne {M : Type} (a1 : Nat) (a2 : M) (tl : List (Nat × M))
    (k : Nat) (h : (k == a1) = false) :
    List.lookup k ((a1, a2) :: tl) = List.lookup k tl := by
  simp [List.lookup, h]

/-- A key absent from every entry is not found by `lookup`. -/
theorem lookup_none_of_forall {M : Type} :
    ∀ (l : List (Nat × M)) (k : Nat), (∀ p ∈ l, p.1 ≠ k) → l.lookup k = none := by
  intro l
  induction l with
  | nil => intro k h; rfl
  | cons a tl ih =>
      intro k h
      obtain ⟨a1, a2⟩ := a
      have ha : a1 ≠ k := h (a1, a2) (by simp)
      have hb : (k == a1) = false := beq_eq_false_iff_ne.mpr (Ne.symm ha)
      rw [lookup_cons_ne a1 a2 tl k hb]
      exact ih k (fun p hp => h p (by simp [hp]))

/-- A failed `lookup` means no entry carries the key. -/
theorem forall_of_lookup_none {M : Type} :
    ∀ (l : List (Nat × M)) (k : Nat), l.lookup k = none → ∀ p ∈ l, p.1 ≠ k := by
  intro l
  induction l with
  | nil => intro k _ p hp; simp at hp
  | cons a tl ih =>
      intro k h p hp
      obtain ⟨a1, a2⟩ := a
      by_cases hk : (k == a1) = true
      · simp only [List.lookup, hk] at h
        exact Option.noConfusion h
      · have hk' : (k == a1) = false := by simpa using hk
        rw [lookup_cons_ne a1 a2 tl k hk'] at h
        rcases List.mem_cons.mp hp with hp | hp
        · subst hp
          exact Ne.symm (beq_eq_false_iff_ne.mp hk')
        · exact ih k h p hp

/-- `lookup` failure is preserved by passing to a sublist. -/
theorem lookup_none_sublist {M : Type} (lsub l : List (Nat × M))
    (h : List.Sublist lsub l) (k : Nat) (hn : l.lookup k = none) :
    lsub.lookup k = none :=
  lookup_none_of_forall lsub k
    (fun p hp => forall_of_lookup_none l k hn p (h.mem hp))

/-- Erasing the entry of key `k` from a list with no duplicate keys makes
`lookup k` fail. -/
theorem eraseP_lookup_none {M : Type} :
    ∀ (l : List (Nat × M)) (k : Nat), (l.map Prod.fst).Nodup →
      (l.eraseP (fun e => e.1 == k)).lookup k = none := by
  intro l
  induction l with
  | nil => intro k _; rfl
  | cons a tl ih =>
      intro k hnd
      obtain ⟨a1, a2⟩ := a
      simp only [List.map_cons, List.nodup_cons] at hnd
      by_cases hak : a1 = k
      · subst hak
        rw [List.eraseP_cons_of_pos (by simp)]
        exact lookup_none_of_forall tl a1
          (fun p hp => fun hpk => hnd.1 (hpk ▸ List.mem_map_of_mem Prod.fst hp))
      · rw [List.eraseP_cons_of_neg (by simpa using hak)]
        have hb : (k == a1) = false := beq_eq_false_iff_ne.mpr (Ne.symm hak)
        rw [lookup_cons_ne a1 a2 (tl.eraseP (fun e => e.1 == k)) k hb]
        exact ih k hnd.2

/-- `pop` only ever removes entries. -/
theorem pop_entries_sublist {M : Type} (c : Cache M) (k : Nat) :
    List.Sublist ((c.pop k).2).entries c.entries := by
  unfold Cache.pop
  cases h : c.entries.lookup k with
  | some v => simpa using List.eraseP_sublist c.entries
  | none => simp

/-- `popOpt` only ever removes entries. -/
theorem popOpt_entries_sublist {M : Type} (c : Cache M) (k : Option Nat) :
    List.Sublist ((c.popOpt k).2).entries c.entries := by
  cases k with
  | some k => exact pop_entries_sublist c k
  | none => exact List.Sublist.refl _

/-- A successful `popAll` only ever removes entries. -/
theorem popAll_entries_sublist {M : Type} :
    ∀ (ks : List (Option Nat)) (c : Cache M) (vs : List M) (c' : Cache M),
      popAll c ks = some (vs, c') → List.Sublist c'.entries c.entries := by
  intro ks
  induction ks with
  | nil =>
      intro c vs c' h
      obtain ⟨h1, h2⟩ := by simpa only [popAll, Option.some.injEq, Prod.mk.injEq] using h
      subst h2
      exact List.Sublist.refl _
  | cons k ks ih =>
      intro c vs c' h
      unfold popAll at h
      cases h1 : c.popOpt k with
      | mk fst snd =>
          rw [h1] at h
          cases fst with
          | none => simp at h
          | some v =>
              simp only at h
              cases h2 : popAll snd ks with
              | none => rw [h2] at h; simp at h
              | some p =>
                  obtain ⟨vs', c''⟩ := p
                  rw [h2] at h
                  simp only [Option.some.injEq, Prod.mk.injEq] at h
                  have hs : List.Sublist c'.entries snd.entries :=
                    h.2 ▸ ih snd vs' c'' h2
                  have hs2 : List.Sublist snd.entries c.entries := by
                    have := popOpt_entries_sublist c k
                    rwa [h1] at this
                  exact hs.trans hs2

/-- After a `pop` on a cache with no duplicate keys, the key is gone. -/
theorem pop_lookup_none {M : Type} (c : Cache M) (k : Nat)
    (hnd : (c.entries.map Prod.fst).Nodup) :
    ((c.pop k).2).entries.lookup k = none := by
  unfold Cache.pop
  cases h : c.entries.lookup k with
  | some v => simpa using eraseP_lookup_none c.entries k hnd
  | none => simpa using h

/-- A successful `popAll` leaves none of the popped keys in the cache. -/
theorem popAll_lookup_none {M : Type} :
    ∀ (ks : List (Option Nat)) (c : Cache M) (vs : List M) (c' : Cache M),
      (c.entries.map Prod.fst).Nodup → popAll c ks = some (vs, c') →
      ∀ k, some k ∈ ks → c'.entries.lookup k = none := by
  intro ks
  induction ks with
  | nil => intro c vs c' _ _ k hk; simp at hk
  | cons k0 ks ih =>
      intro c vs c' hnd h k hk
      unfold popAll at h
      cases h1 : c.popOpt k0 with
      | mk fst snd =>
          rw [h1] at h
          cases fst with
          | none => simp at h
          | some v =>
              simp only at h
              cases h2 : popAll snd ks with
              | none => rw [h2] at h; simp at h
              | some p =>
                  rw [h2] at h
                  obtain ⟨vs', c''⟩ := p
                  simp only [Option.some.injEq, Prod.mk.injEq] at h
                  have hc' : c'' = c' := h.2
                  have hndsnd : (snd.entries.map Prod.fst).Nodup := by
                    have hs : List.Sublist snd.entries c.entries := by
                      have := popOpt_entries_sublist c k0
                      rwa [h1] at this
                    exact hnd.sublist (hs.map Prod.fst)
                  rcases List.mem_cons.mp hk with hk0 | hks
                  · have hkk : k0 = some k := hk0.symm
                    subst hkk
                    have hsnone : snd.entries.lookup k = none := by
                      have := pop_lookup_none c k hnd
                      have he : (c.pop k).2 = snd := by
                        simpa [Cache.popOpt] using congrArg Prod.snd h1
                      rwa [he] at this
                    have hs : List.Sublist c'.entries snd.entries :=
                      hc' ▸ popAll_entries_sublist ks snd vs' c'' h2
                    exact lookup_none_sublist c'.entries snd.entries hs k hsnone
                  · exact hc' ▸ ih snd vs' c'' hndsnd h2 k hks

/-- `popAll` pops exactly one snapshot per pending key. -/
theorem popAll_length {M : Type} :
    ∀ (ks : List (Option Nat)) (c : Cache M) (vs : List M) (c' : Cache M),
      popAll c ks = some (vs, c') → vs.length = ks.length := by
  intro ks
  induction ks with
  | nil =>
      intro c vs c' h
      obtain ⟨h1, h2⟩ := by simpa only [popAll, Option.some.injEq, Prod.mk.injEq] using h
      subst h1
      rfl
  | cons k0 ks ih =>
      intro c vs c' h
      unfold popAll at h
      cases h1 : c.popOpt k0 with
      | mk fst snd =>
          rw [h1] at h
          cases fst with
          | none => simp at h
          | some v =>
              simp only at h
              cases h2 : popAll snd ks with
              | none => rw [h2] at h; simp at h
              | some p =>
                  obtain ⟨vs', c''⟩ := p
                  rw [h2] at h
                  simp only [Option.some.injEq, Prod.mk.injEq] at h
                  have := ih snd vs' c'' h2
                  simp [← h.1, this]

/-- C4: `ChordNode.timed_out` and `All2AllGossipNode.timed_out` return
exactly the base timing predicate; when it fires and LocalCache is
non-empty they pop every pending key from the shared cache (one snapshot
per accumulated sender, and afterwards none of those keys remains), hand
all popped snapshots together with the node's data and the supplied
weights to the multi-source merge, and leave LocalCache empty; when the
predicate is false or LocalCache is empty nothing is merged and the state
and cache are unchanged. -/
theorem batch_timedOut_spec {M D W : Type} (mergeW : M → D → List M → W → M)
    (st : NodeState M D) (c : Cache M) (t : Nat) (w : W)
    (models : List M) (c' : Cache M)
    (hnd : (c.entries.map Prod.fst).Nodup)
    (hpop : popAll c (st.localCache.map (fun e => e.2)) = some (models, c')) :
    (timedOut st t = true → st.localCache ≠ [] →
        chordTimedOut mergeW st c t w
          = some (true,
              { st with model := mergeW st.model st.data models w, localCache := [] },
              c')
        ∧ all2allTimedOut mergeW st c t w
          = some (true,
              { st with model := mergeW st.model st.data models w, localCache := [] },
              c')
        ∧ models.length = st.localCache.length
        ∧ (∀ k, some k ∈ st.localCache.map (fun e => e.2) →
            c'.entries.lookup k = none))
    ∧ (timedOut st t = false ∨ st.localCache = [] →
        chordTimedOut mergeW st c t w = some (timedOut st t, st, c)
        ∧ all2allTimedOut mergeW st c t w = some (timedOut st t, st, c))
    ∧ (∀ out, chordTimedOut mergeW st c t w = some out → out.1 = timedOut st t)
    ∧ (∀ out, all2allTimedOut mergeW st c t w = some out → out.1 = timedOut st t) := by
  refine ⟨?_, ?_, ?_, ?_⟩
  · intro ht hne
    refine ⟨?_, ?_, ?_, ?_⟩
    · simp [chordTimedOut, ht, hne, hpop]
    · simp [all2allTimedOut, ht, hne, hpop]
    · simpa using popAll_length (st.localCache.map (fun e => e.2)) c models c' hpop
    · exact popAll_lookup_none (st.localCache.map (fun e => e.2)) c models c' hnd hpop
  · rintro (ht | hemp)
    · constructor <;> simp [chordTimedOut, all2allTimedOut, ht]
    · constructor <;> simp [chordTimedOut, all2allTimedOut, hemp]
  · intro out hout
    obtain ⟨o1, o2, o3⟩ := out
    simp only [chordTimedOut] at hout
    all_goals (repeat split at hout)
    all_goals simp_all
    all_goals (rw [← hout.2.1, ← hout.1])
  · intro out hout
    obtain ⟨o1, o2, o3⟩ := out
    simp only [all2allTimedOut] at hout
    all_goals (repeat split at hout)
    all_goals simp_all
    all_goals (rw [← hout.2.1, ← hout.1])

/-- Witness for C4: a synchronous node due at `t = 3` with two pending
senders `5 ↦ key 1` and `6 ↦ key 0`; both snapshots (`100` and `7`) are
popped, merged (merge modelled as summation) and the local cache is left
empty. -/
theorem batch_timedOut_spec_w :
    chordTimedOut (M := Nat) (D := Unit) (W := List Nat)
        (fun m _ ms _ => m + ms.sum)
        ⟨0, (), 10, 3, true, 42, [(5, some 1), (6, some 0)]⟩
        ⟨[(0, 7), (1, 100)], 2⟩ 3 [1, 2]
      = some (true, ⟨0, (), 10, 3, true, 149, []⟩, ⟨[], 2⟩)
    ∧ all2allTimedOut (M := Nat) (D := Unit) (W := List Nat)
        (fun m _ ms _ => m + ms.sum)
        ⟨0, (), 10, 3, true, 42, [(5, some 1), (6, some 0)]⟩
        ⟨[(0, 7), (1, 100)], 2⟩ 3 [1, 2]
      = some (true, ⟨0, (), 10, 3, true, 149, []⟩, ⟨[], 2⟩) := by
  have h := batch_timedOut_spec (M := Nat) (D := Unit) (W := List Nat)
    (fun m _ ms _ => m + ms.sum)
    ⟨0, (), 10, 3, true, 42, [(5, some 1), (6, some 0)]⟩
    ⟨[(0, 7), (1, 100)], 2⟩ 3 [1, 2] [100, 7] ⟨[], 2⟩
    (by decide) (by decide)
  have h1 := (h.1 rfl (by decide)).1
  have h2 := (h.1 rfl (by decide)).2.1
  exact ⟨by simpa using h1, by simpa using h2⟩

end Gossipy
